import Mathlib

/-!
# EGLD price predictor (`src/App.jsx`): a shallow embedding

The component `App` keeps seven `useState` cells, polls a price endpoint from
one effect and fabricates a prediction in a second effect.  The embedding below
follows the source function by function:

* a JavaScript number is the rational it denotes (`ℚ`); `null` is `none`.
  Arithmetic is given twice: `getRandomIncrease` and `predictionEffect` compute
  in exact rational arithmetic, `getRandomIncrease64` and `predictionEffect64`
  round every operation to binary64 (`round64`, nearest, ties to even), as the
  engine does.  `round64` is the IEEE rounding on the finite range; overflow to
  `Infinity` and `NaN` are not represented.
* `Math.random()` is an explicit argument `r` of every function that draws.
* `new Date().toLocaleTimeString()` is an explicit argument `now`.
* an `async` function is split at its `await`: the part before it
  (`fetchPriceStart`) and the continuation (`fetchPriceResume`), which reads
  the closure variable `cancelled` when it runs.
* a `TypeError` (property read on `undefined`) is `none` in `Option`.
-/

namespace Vibeox

/-! ## Data -/

/-- One entry of the `TIMEFRAMES` table (App.jsx, lines 23-28). -/
structure Timeframe where
  label : String
  key : String
  min : ℚ
  max : ℚ
  deriving DecidableEq

/-- The `TIMEFRAMES` constant, in source order. -/
def TIMEFRAMES : List Timeframe :=
  [ { label := "Tomorrow", key := "tomorrow", min := 8, max := 10 },
    { label := "Next Week", key := "week", min := 28, max := 30 },
    { label := "Next Month", key := "month", min := 220, max := 222 },
    { label := "Next Year", key := "year", min := 3000, max := 3006 } ]

/-- `getRandomIncrease(min, max)` (lines 30-32) in exact rational arithmetic; `r`
is the value returned by `Math.random()`.  The binary64 computation is
`getRandomIncrease64`. -/
def getRandomIncrease (r min max : ℚ) : ℚ :=
  r * (max - min) + min

/-- The seven `useState` cells of `App` (lines 35-42). -/
structure State where
  price : Option ℚ
  lastUpdated : Option String
  error : Option String
  page : String
  selectedTimeframe : Option String
  predictedPrice : Option ℚ
  predictedPercent : Option ℚ
  deriving DecidableEq

/-- The initial values passed to `useState`. -/
def initialState : State :=
  { price := none, lastUpdated := none, error := none, page := "main",
    selectedTimeframe := none, predictedPrice := none, predictedPercent := none }

/-- JavaScript truthiness of a value that is `null` or a string. -/
def truthy : Option String → Bool
  | none => false
  | some str => str != ""

/-- JavaScript truthiness of a value that is `null` or a number. -/
def truthyNum : Option ℚ → Bool
  | none => false
  | some q => q != 0

/-- The message published by the `catch` block of `fetchPrice`. -/
def fetchErrorMessage : String := "Could not fetch EGLD price."

/-! ## The polling effect (lines 45-72) -/

/-- What the awaited request of one poll turns out to be.
`payload none` is a parsed body without a usable `"elrond-erd-2"` entry (reading
`.usd` on it throws); `payload (some v)` is a body
`{ "elrond-erd-2": { "usd": v } }` with a number `v`, the shape the endpoint
documents.  An entry without a numeric `usd` is not represented. -/
inductive PollOutcome where
  | fetchRejects
  | statusNotOk
  | jsonFails
  | payload (entry : Option ℚ)
  deriving DecidableEq

/-- A poll counts as failed when it did not deliver a price. -/
def PollOutcome.failed : PollOutcome → Bool
  | .payload (some _) => false
  | _ => true

/-- `fetchPrice` up to its first `await`: `setError(null)` (line 49). -/
def fetchPriceStart (s : State) : State :=
  { s with error := none }

/-- The continuation of `fetchPrice` after the awaits (lines 54-62).
`cancelled` is the value of the closure variable when the continuation runs. -/
def fetchPriceResume (s : State) (cancelled : Bool) (now : String) :
    PollOutcome → State
  | .fetchRejects => { s with error := some fetchErrorMessage }
  | .statusNotOk => { s with error := some fetchErrorMessage }
  | .jsonFails => { s with error := some fetchErrorMessage }
  | .payload entry =>
    if !cancelled then
      match entry with
      | none => { s with error := some fetchErrorMessage }
      | some usd => { s with price := some usd, lastUpdated := some now }
    else s

/-- One whole run of `fetchPrice` with no other state update in between. -/
def fetchPrice (s : State) (cancelled : Bool) (now : String) (o : PollOutcome) : State :=
  fetchPriceResume (fetchPriceStart s) cancelled now o

/-! ## The prediction effect (lines 75-86) -/

/-- The body of the second `useEffect`, with exact rational arithmetic.  `none` is
the `TypeError` raised by `tf.min` when `TIMEFRAMES.find` returns `undefined`.  The
binary64 computation is `predictionEffect64`. -/
def predictionEffect (s : State) (r : ℚ) : Option State :=
  match truthy s.selectedTimeframe, s.price with
  | true, some price =>
    match TIMEFRAMES.find? (fun t => some t.key == s.selectedTimeframe) with
    | none => none
    | some tf =>
      let percent := getRandomIncrease r tf.min tf.max
      let newPrice := price * (1 + percent / 100)
      some { s with predictedPercent := some percent, predictedPrice := some newPrice }
  | _, _ => some { s with predictedPrice := none, predictedPercent := none }

/-! ## Binary64 arithmetic -/

/-- Rounding of a rational to the nearest integer, ties to the even one. -/
def roundHalfEven (x : ℚ) : ℤ :=
  if x - ⌊x⌋ < 1 / 2 then ⌊x⌋
  else if 1 / 2 < x - ⌊x⌋ then ⌊x⌋ + 1
  else if ⌊x⌋ % 2 = 0 then ⌊x⌋ else ⌊x⌋ + 1

/-- The binary exponent of the binade of `x`, not below the smallest normal
exponent `-1022` (below it the subnormal spacing applies). -/
def binade (x : ℚ) : ℤ := max (Int.log 2 |x|) (-1022)

/-- The spacing of binary64 numbers in the binade of `x` (53 significant bits). -/
def ulp (x : ℚ) : ℚ := (2 : ℚ) ^ (binade x - 52)

/-- The binary64 number nearest to `x`, ties to even: the value a JavaScript
arithmetic operation returns when its exact result is `x` (finite range). -/
def round64 (x : ℚ) : ℚ := roundHalfEven (x / ulp x) * ulp x

/-- `getRandomIncrease(min, max)` (lines 30-32) as the engine computes it:
`Math.random() * (max - min) + min` with each of the three operations rounded. -/
def getRandomIncrease64 (r min max : ℚ) : ℚ :=
  round64 (round64 (r * round64 (max - min)) + min)

/-- The expression `price * (1 + percent / 100)` of line 79 as the engine computes
it, each of the three operations rounded. -/
def predictedPrice64 (price percent : ℚ) : ℚ :=
  round64 (price * round64 (1 + round64 (percent / 100)))

/-- The body of the second `useEffect` (lines 75-86) with binary64 arithmetic; the
branches are those of `predictionEffect`. -/
def predictionEffect64 (s : State) (r : ℚ) : Option State :=
  match truthy s.selectedTimeframe, s.price with
  | true, some price =>
    match TIMEFRAMES.find? (fun t => some t.key == s.selectedTimeframe) with
    | none => none
    | some tf =>
      let percent := getRandomIncrease64 r tf.min tf.max
      let newPrice := predictedPrice64 price percent
      some { s with predictedPercent := some percent, predictedPrice := some newPrice }
  | _, _ => some { s with predictedPrice := none, predictedPercent := none }

/-! ## Event handlers (lines 89-99) -/

/-- `handleTimeframeSelect(key)`. -/
def handleTimeframeSelect (s : State) (key : String) : State :=
  { s with selectedTimeframe := some key, page := "prediction" }

/-- `handleReselect()`. -/
def handleReselect (s : State) : State :=
  { s with selectedTimeframe := none, predictedPrice := none,
           predictedPercent := none, page := "main" }

/-! ## Rendering (lines 102-190) -/

/-- The three alternatives of the conditional in the main card (lines 109-144).
`live` carries the price, the timestamp and the `key`s of the rendered buttons. -/
inductive MainBody where
  | errorMessage (msg : String)
  | loading
  | live (price : ℚ) (lastUpdated : Option String) (buttons : List String)
  deriving DecidableEq

/-- What `App` returns: the main card, or the prediction card with its caption
suffix, the shown price and the shown percent (`none` is the placeholder of two
dashes). -/
inductive View where
  | main (body : MainBody)
  | prediction (caption : String) (shownPrice shownPercent : Option ℚ)
  deriving DecidableEq

/-- The conditional `error ? … : price === null ? … : …` of the main card. -/
def renderMainBody (s : State) : MainBody :=
  if truthy s.error then .errorMessage (s.error.getD "")
  else
    match s.price with
    | none => .loading
    | some price => .live price s.lastUpdated (TIMEFRAMES.map (fun tf => tf.key))

/-- The render function of `App`. -/
def render (s : State) : View :=
  if s.page = "main" then .main (renderMainBody s)
  else
    let tf := TIMEFRAMES.find? (fun t => some t.key == s.selectedTimeframe)
    .prediction (match tf with | some t => t.label.toLower | none => "")
      (if truthyNum s.predictedPrice then s.predictedPrice else none)
      (if truthyNum s.predictedPercent then s.predictedPercent else none)

/-! ## The component as a transition system -/

/-- Everything that can update the state of a mounted `App`. -/
inductive Event where
  | pollStart
  | pollDone (cancelled : Bool) (now : String) (o : PollOutcome)
  | select (key : String)
  | reselect
  deriving DecidableEq

/-- The state updates an event performs before React renders again. -/
def handle (s : State) : Event → State
  | .pollStart => fetchPriceStart s
  | .pollDone cancelled now o => fetchPriceResume s cancelled now o
  | .select key => handleTimeframeSelect s key
  | .reselect => handleReselect s

/-- After a render React re-runs the prediction effect exactly when one of its
dependencies `[selectedTimeframe, price]` changed (line 86). -/
def runEffects (old new : State) (r : ℚ) : Option State :=
  if new.selectedTimeframe = old.selectedTimeframe ∧ new.price = old.price then some new
  else predictionEffect new r

/-- One event followed by the effect pass it triggers; `r` is the draw the
effect would use. -/
def step (s : State) (ev : Event) (r : ℚ) : Option State :=
  runEffects s (handle s ev) r

/-- Which events are considered: a bucket can only be selected through a
button that `render` produced, and a delivered price is positive. -/
def enabled (s : State) : Event → Bool
  | .select key =>
    match render s with
    | .main (.live _ _ buttons) => buttons.contains key
    | _ => false
  | .pollDone _ _ (.payload (some usd)) => decide (0 < usd)
  | _ => true

/-- States reachable from `s0` by enabled events. -/
inductive ReachableFrom (s0 : State) : State → Prop where
  | refl : ReachableFrom s0 s0
  | step {s s' : State} (ev : Event) (r : ℚ) :
      ReachableFrom s0 s → enabled s ev = true → step s ev r = some s' →
      ReachableFrom s0 s'

/-- The invariant of the reachable states: the main page has no selected
timeframe; the prediction page has a price, a selected key of the table and a
prediction. -/
def Inv (s : State) : Prop :=
  (s.page = "main" ∧ s.selectedTimeframe = none) ∨
  (s.page = "prediction" ∧ s.price ≠ none ∧
    (∃ B ∈ TIMEFRAMES, s.selectedTimeframe = some B.key) ∧ s.predictedPrice ≠ none)

/-! ## Facts about the table -/

theorem mem_TIMEFRAMES_iff (B : Timeframe) :
    B ∈ TIMEFRAMES ↔
      B = ⟨"Tomorrow", "tomorrow", 8, 10⟩ ∨ B = ⟨"Next Week", "week", 28, 30⟩ ∨
      B = ⟨"Next Month", "month", 220, 222⟩ ∨ B = ⟨"Next Year", "year", 3000, 3006⟩ := by
  simp [TIMEFRAMES]

theorem min_lt_max_of_mem {B : Timeframe} (hB : B ∈ TIMEFRAMES) : B.min < B.max := by
  rcases (mem_TIMEFRAMES_iff B).1 hB with h | h | h | h <;> subst h <;> norm_num

theorem key_truthy_of_mem {B : Timeframe} (hB : B ∈ TIMEFRAMES) :
    truthy (some B.key) = true := by
  rcases (mem_TIMEFRAMES_iff B).1 hB with h | h | h | h <;> subst h <;> decide

theorem find_key_of_mem {B : Timeframe} (hB : B ∈ TIMEFRAMES) :
    TIMEFRAMES.find? (fun t => some t.key == some B.key) = some B := by
  rcases (mem_TIMEFRAMES_iff B).1 hB with h | h | h | h <;> subst h <;> decide

theorem mem_of_find {sel : Option String} {tf : Timeframe}
    (h : TIMEFRAMES.find? (fun t => some t.key == sel) = some tf) :
    tf ∈ TIMEFRAMES ∧ sel = some tf.key := by
  refine ⟨List.mem_of_find?_eq_some h, ?_⟩
  have := List.find?_some h
  exact (by simpa using this : some tf.key = sel).symm

/-! ## Facts about the prediction effect -/

theorem predictionEffect_of_key {B : Timeframe} (hB : B ∈ TIMEFRAMES) (s : State) (P r : ℚ)
    (hprice : s.price = some P) (hsel : s.selectedTimeframe = some B.key) :
    predictionEffect s r =
      some { s with predictedPercent := some (getRandomIncrease r B.min B.max),
                    predictedPrice := some (P * (1 + getRandomIncrease r B.min B.max / 100)) } := by
  simp only [predictionEffect, hprice, hsel, key_truthy_of_mem hB, find_key_of_mem hB]

theorem predictionEffect_of_null (s : State) (r : ℚ) (hsel : s.selectedTimeframe = none) :
    predictionEffect s r = some { s with predictedPrice := none, predictedPercent := none } := by
  simp [predictionEffect, hsel, truthy]

theorem getRandomIncrease_bounds {r lo hi : ℚ} (hr0 : 0 ≤ r) (hr1 : r < 1) (h : lo < hi) :
    lo ≤ getRandomIncrease r lo hi ∧ getRandomIncrease r lo hi < hi := by
  unfold getRandomIncrease
  constructor <;> nlinarith

theorem predictionEffect_frame {s s' : State} {r : ℚ} (h : predictionEffect s r = some s') :
    s'.price = s.price ∧ s'.lastUpdated = s.lastUpdated ∧ s'.error = s.error ∧
    s'.page = s.page ∧ s'.selectedTimeframe = s.selectedTimeframe := by
  unfold predictionEffect at h
  split at h
  · split at h
    · cases h
    · cases h
      exact ⟨rfl, rfl, rfl, rfl, rfl⟩
  · cases h
    exact ⟨rfl, rfl, rfl, rfl, rfl⟩

/-! ## Facts about rendering and the transition system -/

theorem enabled_select {s : State} {key : String} (h : enabled s (.select key) = true) :
    s.page = "main" ∧ truthy s.error = false ∧ (∃ P, s.price = some P) ∧
    ∃ B ∈ TIMEFRAMES, key = B.key := by
  unfold enabled render renderMainBody at h
  by_cases hp : s.page = "main"
  · rw [if_pos hp] at h
    cases he : truthy s.error
    · rw [he] at h
      rcases hprice : s.price with _ | P
      · rw [hprice] at h
        simp at h
      · rw [hprice] at h
        simp only [Bool.false_eq_true, if_false, List.contains_eq_any_beq, List.any_map,
          List.any_eq_true, Function.comp_apply, beq_iff_eq] at h
        obtain ⟨k, hk, rfl⟩ := h
        obtain ⟨B, hB, rfl⟩ := List.mem_map.1 hk
        exact ⟨hp, rfl, ⟨P, rfl⟩, B, hB, rfl⟩
    · rw [he] at h
      simp at h
  · rw [if_neg hp] at h
    simp at h

theorem handle_price_ne_none {s : State} (ev : Event) (h : s.price ≠ none) :
    (handle s ev).price ≠ none := by
  rcases ev with _ | ⟨c, now, o⟩ | key | _
  · exact h
  · rcases o with _ | _ | _ | (_ | v)
    · exact h
    · exact h
    · exact h
    · cases c <;> exact h
    · cases c
      · simp [handle, fetchPriceResume]
      · exact h
  · exact h
  · exact h

theorem step_price_ne_none {s s' : State} {ev : Event} {r : ℚ} (hstep : step s ev r = some s')
    (h : s.price ≠ none) : s'.price ≠ none := by
  unfold step runEffects at hstep
  split at hstep
  · cases hstep
    exact handle_price_ne_none ev h
  · rw [(predictionEffect_frame hstep).1]
    exact handle_price_ne_none ev h

theorem reachableFrom_price_ne_none {s s' : State} (hreach : ReachableFrom s s')
    (h : s.price ≠ none) : s'.price ≠ none := by
  induction hreach with
  | refl => exact h
  | step ev r _ _ hstep ih => exact step_price_ne_none hstep ih

theorem inv_initialState : Inv initialState := Or.inl ⟨rfl, rfl⟩

theorem inv_congr {s s' : State} (hpage : s'.page = s.page)
    (hsel : s'.selectedTimeframe = s.selectedTimeframe) (hprice : s'.price = s.price)
    (hpred : s'.predictedPrice = s.predictedPrice) (h : Inv s) : Inv s' := by
  unfold Inv at h ⊢
  rw [hpage, hsel, hprice, hpred]
  exact h

theorem runEffects_same_deps {s t : State} (r : ℚ)
    (hsel : t.selectedTimeframe = s.selectedTimeframe) (hprice : t.price = s.price) :
    runEffects s t r = some t := by
  unfold runEffects
  rw [if_pos ⟨hsel, hprice⟩]

theorem step_reselect (s : State) (r : ℚ) : step s .reselect r = some (handleReselect s) := by
  unfold step runEffects
  split
  · rfl
  · exact predictionEffect_of_null (handleReselect s) r rfl

theorem inv_step {s : State} (ev : Event) (r : ℚ) (hinv : Inv s) (hen : enabled s ev = true) :
    ∃ s', step s ev r = some s' ∧ Inv s' := by
  rcases ev with _ | ⟨c, now, o⟩ | key | _
  · exact ⟨_, runEffects_same_deps r rfl rfl, inv_congr rfl rfl rfl rfl hinv⟩
  · have hkeep : ∀ e : Option String, ∃ s', runEffects s { s with error := e } r = some s' ∧
        Inv s' :=
      fun e => ⟨_, runEffects_same_deps r rfl rfl, inv_congr rfl rfl rfl rfl hinv⟩
    have hsame : ∃ s', runEffects s s r = some s' ∧ Inv s' :=
      ⟨_, runEffects_same_deps r rfl rfl, hinv⟩
    rcases o with _ | _ | _ | (_ | v)
    · exact hkeep _
    · exact hkeep _
    · exact hkeep _
    · cases c
      · exact hkeep _
      · exact hsame
    · cases c
      · -- a delivered price: the effect re-runs when the price changed
        show ∃ s', runEffects s { s with price := some v, lastUpdated := some now } r = some s' ∧
          Inv s'
        by_cases hv : some v = s.price
        · exact ⟨_, runEffects_same_deps r rfl hv, @inv_congr s _ rfl rfl hv rfl hinv⟩
        · unfold runEffects
          rw [if_neg (fun h => hv h.2)]
          rcases hinv with ⟨hp, hsel⟩ | ⟨hp, _, ⟨B, hB, hsel⟩, _⟩
          · exact ⟨_, predictionEffect_of_null _ r hsel, Or.inl ⟨hp, hsel⟩⟩
          · refine ⟨_, predictionEffect_of_key hB _ v r rfl hsel, Or.inr ⟨hp, ?_, ⟨B, hB, hsel⟩, ?_⟩⟩
            · simp
            · simp
      · exact hsame
  · obtain ⟨hp, _, ⟨P, hprice⟩, B, hB, rfl⟩ := enabled_select hen
    have hnone : s.selectedTimeframe = none := by
      rcases hinv with ⟨_, hsel⟩ | ⟨hp', _⟩
      · exact hsel
      · rw [hp] at hp'
        exact absurd hp' (by decide)
    show ∃ s', runEffects s (handleTimeframeSelect s B.key) r = some s' ∧ Inv s'
    unfold runEffects
    rw [if_neg (fun h => by
      have h1 : (handleTimeframeSelect s B.key).selectedTimeframe = none := h.1.trans hnone
      cases h1)]
    refine ⟨_, predictionEffect_of_key hB (handleTimeframeSelect s B.key) P r hprice rfl,
      Or.inr ⟨rfl, ?_, ⟨B, hB, rfl⟩, ?_⟩⟩
    · simp [handleTimeframeSelect, hprice]
    · simp
  · exact ⟨_, step_reselect s r, Or.inl ⟨rfl, rfl⟩⟩

theorem inv_of_reachable {s : State} (h : ReachableFrom initialState s) : Inv s := by
  induction h with
  | refl => exact inv_initialState
  | step ev r _ hen hstep ih =>
    obtain ⟨s'', hs'', hinv⟩ := inv_step ev r ih hen
    rw [hstep] at hs''
    cases hs''
    exact hinv

/-! ## Facts about binary64 rounding -/

theorem roundHalfEven_near {x : ℚ} {n : ℤ} (h : |x - n| < 1 / 2) : roundHalfEven x = n := by
  rw [abs_lt] at h
  obtain ⟨h1, h2⟩ := h
  by_cases hx : (n : ℚ) ≤ x
  · have hf : ⌊x⌋ = n := by
      rw [Int.floor_eq_iff]
      constructor <;> linarith
    unfold roundHalfEven
    rw [hf, if_pos (by linarith)]
  · have hf : ⌊x⌋ = n - 1 := by
      rw [Int.floor_eq_iff]
      push_cast
      constructor <;> linarith
    unfold roundHalfEven
    rw [hf, if_neg (by push_cast; linarith), if_pos (by push_cast; linarith)]
    ring

theorem roundHalfEven_intCast (n : ℤ) : roundHalfEven (n : ℚ) = n :=
  roundHalfEven_near (by simp)

theorem floor_le_roundHalfEven (x : ℚ) : ⌊x⌋ ≤ roundHalfEven x := by
  unfold roundHalfEven
  split_ifs <;> omega

theorem roundHalfEven_le_floor_add_one (x : ℚ) : roundHalfEven x ≤ ⌊x⌋ + 1 := by
  unfold roundHalfEven
  split_ifs <;> omega

theorem roundHalfEven_mono {x y : ℚ} (h : x ≤ y) : roundHalfEven x ≤ roundHalfEven y := by
  have hfl : ⌊x⌋ ≤ ⌊y⌋ := Int.floor_mono h
  rcases hfl.lt_or_eq with hlt | heq
  · calc roundHalfEven x ≤ ⌊x⌋ + 1 := roundHalfEven_le_floor_add_one x
      _ ≤ ⌊y⌋ := hlt
      _ ≤ roundHalfEven y := floor_le_roundHalfEven y
  · unfold roundHalfEven
    rw [heq]
    have hq : ((⌊x⌋ : ℤ) : ℚ) = ((⌊y⌋ : ℤ) : ℚ) := by rw [heq]
    split_ifs <;> first | omega | (exfalso; linarith)

theorem roundHalfEven_sub_le (x : ℚ) : |(roundHalfEven x : ℚ) - x| ≤ 1 / 2 := by
  have h1 := Int.floor_le x
  have h2 := Int.lt_floor_add_one x
  rw [abs_le]
  unfold roundHalfEven
  split_ifs <;> push_cast <;> constructor <;> linarith

theorem two_pow_mul_zpow (k : ℕ) (e : ℤ) :
    (2 : ℚ) ^ k * (2 : ℚ) ^ (e - 52) = (2 : ℚ) ^ (e - 52 + k) := by
  rw [← zpow_natCast, ← zpow_add₀ (by norm_num)]
  congr 1
  omega

theorem ulp_pos (x : ℚ) : 0 < ulp x := by
  unfold ulp
  positivity

theorem binade_eq {x : ℚ} {e : ℤ} (hx : 0 < x) (h1 : (2 : ℚ) ^ e ≤ x) (h2 : x < (2 : ℚ) ^ (e + 1))
    (he : -1022 ≤ e) : binade x = e := by
  have hlog : Int.log 2 x = e := by
    apply le_antisymm
    · have := (Int.lt_zpow_iff_log_lt (b := 2) (by norm_num) hx).1 (by simpa using h2)
      omega
    · exact (Int.zpow_le_iff_le_log (b := 2) (by norm_num) hx).1 (by simpa using h1)
  unfold binade
  rw [abs_of_pos hx, hlog]
  exact max_eq_left he

theorem round64_of_binade {x : ℚ} {e : ℤ} (hx : 0 < x) (h1 : (2 : ℚ) ^ e ≤ x)
    (h2 : x < (2 : ℚ) ^ (e + 1)) (he : -1022 ≤ e) :
    round64 x = roundHalfEven (x / (2 : ℚ) ^ (e - 52)) * (2 : ℚ) ^ (e - 52) := by
  unfold round64 ulp
  rw [binade_eq hx h1 h2 he]

theorem round64_eval {x : ℚ} (e n : ℤ) (hx : 0 < x) (h1 : (2 : ℚ) ^ e ≤ x)
    (h2 : x < (2 : ℚ) ^ (e + 1)) (he : -1022 ≤ e)
    (hn : |x / (2 : ℚ) ^ (e - 52) - n| < 1 / 2) :
    round64 x = n * (2 : ℚ) ^ (e - 52) := by
  rw [round64_of_binade hx h1 h2 he, roundHalfEven_near hn]

theorem round64_zero : round64 0 = 0 := by
  simp [round64, roundHalfEven]

theorem round64_nonneg {x : ℚ} (hx : 0 ≤ x) : 0 ≤ round64 x := by
  unfold round64
  have hu := ulp_pos x
  have h0 : (0 : ℤ) ≤ roundHalfEven (x / ulp x) :=
    le_trans (Int.floor_nonneg.2 (div_nonneg hx hu.le)) (floor_le_roundHalfEven _)
  have : (0 : ℚ) ≤ (roundHalfEven (x / ulp x) : ℚ) := by exact_mod_cast h0
  positivity

theorem lt_zpow_binade_succ {x : ℚ} (hx : 0 < x) : x < (2 : ℚ) ^ (binade x + 1) := by
  have h := Int.lt_zpow_succ_log_self (b := 2) (by norm_num) x
  have hle : Int.log 2 x + 1 ≤ binade x + 1 := by
    unfold binade
    rw [abs_of_pos hx]
    have := le_max_left (Int.log 2 x) (-1022)
    omega
  calc x < ((2 : ℕ) : ℚ) ^ (Int.log 2 x + 1) := h
    _ = (2 : ℚ) ^ (Int.log 2 x + 1) := by norm_num
    _ ≤ (2 : ℚ) ^ (binade x + 1) := zpow_le_zpow_right₀ (by norm_num) hle

theorem round64_le_zpow {x : ℚ} (hx : 0 < x) : round64 x ≤ (2 : ℚ) ^ (binade x + 1) := by
  have hu := ulp_pos x
  have hlt : x / ulp x ≤ ((2 ^ 53 : ℤ) : ℚ) := by
    rw [div_le_iff₀ hu]
    have : (((2 ^ 53 : ℤ) : ℚ)) * ulp x = (2 : ℚ) ^ (binade x + 1) := by
      unfold ulp
      rw [Int.cast_pow, Int.cast_ofNat, two_pow_mul_zpow]
      congr 1
      omega
    rw [this]
    exact (lt_zpow_binade_succ hx).le
  have hr : roundHalfEven (x / ulp x) ≤ 2 ^ 53 := by
    have := roundHalfEven_mono hlt
    rwa [roundHalfEven_intCast] at this
  have hrq : (roundHalfEven (x / ulp x) : ℚ) ≤ 2 ^ 53 := by exact_mod_cast hr
  unfold round64
  calc (roundHalfEven (x / ulp x) : ℚ) * ulp x ≤ 2 ^ 53 * ulp x :=
        mul_le_mul_of_nonneg_right hrq hu.le
    _ = (2 : ℚ) ^ (binade x + 1) := by
      unfold ulp
      rw [two_pow_mul_zpow]
      congr 1
      omega

theorem zpow_le_round64 {x : ℚ} (hx : 0 < x) (hb : -1022 < binade x) :
    (2 : ℚ) ^ (binade x) ≤ round64 x := by
  have hu := ulp_pos x
  have hlog : binade x = Int.log 2 x := by
    unfold binade at hb ⊢
    rw [abs_of_pos hx] at hb ⊢
    rcases max_cases (Int.log 2 x) (-1022) with ⟨h, _⟩ | ⟨h, _⟩
    · exact h
    · omega
  have hle : (2 : ℚ) ^ (binade x) ≤ x := by
    rw [hlog]
    have := Int.zpow_log_le_self (b := 2) (by norm_num) hx
    simpa using this
  have hge : ((2 ^ 52 : ℤ) : ℚ) ≤ x / ulp x := by
    rw [le_div_iff₀ hu]
    have : (((2 ^ 52 : ℤ) : ℚ)) * ulp x = (2 : ℚ) ^ (binade x) := by
      unfold ulp
      rw [Int.cast_pow, Int.cast_ofNat, two_pow_mul_zpow]
      congr 1
      omega
    rw [this]
    exact hle
  have hr : 2 ^ 52 ≤ roundHalfEven (x / ulp x) := by
    have := roundHalfEven_mono hge
    rwa [roundHalfEven_intCast] at this
  have hrq : (2 ^ 52 : ℚ) ≤ (roundHalfEven (x / ulp x) : ℚ) := by exact_mod_cast hr
  unfold round64
  calc (2 : ℚ) ^ (binade x) = 2 ^ 52 * ulp x := by
        unfold ulp
        rw [two_pow_mul_zpow]
        congr 1
        omega
    _ ≤ (roundHalfEven (x / ulp x) : ℚ) * ulp x := mul_le_mul_of_nonneg_right hrq hu.le

theorem round64_mono {x y : ℚ} (hx : 0 ≤ x) (h : x ≤ y) : round64 x ≤ round64 y := by
  rcases hx.lt_or_eq with hpos | h0
  · have hy : 0 < y := lt_of_lt_of_le hpos h
    have hb : binade x ≤ binade y := by
      unfold binade
      rw [abs_of_pos hpos, abs_of_pos hy]
      exact max_le_max (Int.log_mono_right hpos h) le_rfl
    rcases hb.lt_or_eq with hlt | heq
    · have hy2 : -1022 < binade y := by
        have : -1022 ≤ binade x := le_max_right _ _
        omega
      calc round64 x ≤ (2 : ℚ) ^ (binade x + 1) := round64_le_zpow hpos
        _ ≤ (2 : ℚ) ^ (binade y) := zpow_le_zpow_right₀ (by norm_num) (by omega)
        _ ≤ round64 y := zpow_le_round64 hy hy2
    · have hu : ulp x = ulp y := by unfold ulp; rw [heq]
      unfold round64
      rw [hu]
      have := roundHalfEven_mono (div_le_div_of_nonneg_right h (ulp_pos y).le)
      have hq : (roundHalfEven (x / ulp y) : ℚ) ≤ (roundHalfEven (y / ulp y) : ℚ) := by
        exact_mod_cast this
      exact mul_le_mul_of_nonneg_right hq (ulp_pos y).le
  · rw [← h0, round64_zero]
    exact round64_nonneg (h0 ▸ h)

theorem round64_int_mul_zpow {m k : ℤ} (hm0 : 0 ≤ m) (hm : m < 2 ^ 53) (hk : -1074 ≤ k) :
    round64 (m * (2 : ℚ) ^ k) = m * (2 : ℚ) ^ k := by
  rcases hm0.lt_or_eq with hpos | h0
  · have hmq : (0 : ℚ) < m := by exact_mod_cast hpos
    have hx : (0 : ℚ) < m * (2 : ℚ) ^ k := by positivity
    have hb : binade (m * (2 : ℚ) ^ k) ≤ k + 52 := by
      unfold binade
      rw [abs_of_pos hx]
      apply max_le _ (by omega)
      have hlt : (m : ℚ) * (2 : ℚ) ^ k < ((2 : ℕ) : ℚ) ^ (k + 53) := by
        have h53 : (m : ℚ) < 2 ^ 53 := by exact_mod_cast hm
        have : (2 : ℚ) ^ (k + 53) = 2 ^ 53 * (2 : ℚ) ^ k := by
          rw [← zpow_natCast, ← zpow_add₀ (by norm_num)]
          congr 1
          omega
        rw [Nat.cast_ofNat, this]
        exact mul_lt_mul_of_pos_right h53 (by positivity)
      have := (Int.lt_zpow_iff_log_lt (b := 2) (by norm_num) hx).1 hlt
      omega
    obtain ⟨j, hj⟩ := Int.eq_ofNat_of_zero_le (show 0 ≤ k + 52 - binade (m * (2 : ℚ) ^ k) by omega)
    have hdiv : (m : ℚ) * (2 : ℚ) ^ k / ulp (m * (2 : ℚ) ^ k) = ((m * 2 ^ j : ℤ) : ℚ) := by
      unfold ulp
      rw [mul_div_assoc, ← zpow_sub₀ (by norm_num)]
      push_cast
      rw [← zpow_natCast]
      congr 2
      omega
    unfold round64
    rw [hdiv, roundHalfEven_intCast, ← hdiv]
    exact div_mul_cancel₀ _ (ulp_pos _).ne'
  · rw [← h0]
    simp [round64_zero]

theorem round64_natCast {n : ℕ} (hn : n < 2 ^ 53) : round64 (n : ℚ) = n := by
  have := round64_int_mul_zpow (m := (n : ℤ)) (k := 0) (by omega) (by exact_mod_cast hn)
    (by norm_num)
  simpa using this

theorem round64_sub_le (x : ℚ) : |round64 x - x| ≤ ulp x / 2 := by
  have hu := ulp_pos x
  have h := roundHalfEven_sub_le (x / ulp x)
  have : round64 x - x = ((roundHalfEven (x / ulp x) : ℚ) - x / ulp x) * ulp x := by
    unfold round64
    field_simp
  rw [this, abs_mul, abs_of_pos hu]
  calc |(roundHalfEven (x / ulp x) : ℚ) - x / ulp x| * ulp x ≤ 1 / 2 * ulp x :=
        mul_le_mul_of_nonneg_right h hu.le
    _ = ulp x / 2 := by ring

theorem ulp_le_of_lt {x : ℚ} {e : ℤ} (hx : 0 ≤ x) (h : x < (2 : ℚ) ^ (e + 1)) (he : 0 ≤ e) :
    ulp x ≤ (2 : ℚ) ^ (e - 52) := by
  unfold ulp
  apply zpow_le_zpow_right₀ (by norm_num)
  have : binade x ≤ e := by
    unfold binade
    rw [abs_of_nonneg hx]
    apply max_le _ (by omega)
    rcases hx.lt_or_eq with hpos | h0
    · have := (Int.lt_zpow_iff_log_lt (b := 2) (by norm_num) hpos).1 (by simpa using h)
      omega
    · rw [← h0, Int.log_zero_right]
      exact he
  omega

theorem round64_of_close {z v : ℚ} {e N : ℤ} (he : -1022 ≤ e) (h1 : (2 : ℚ) ^ e ≤ z)
    (h2 : z < (2 : ℚ) ^ (e + 1)) (hv : v = N * (2 : ℚ) ^ (e - 52))
    (hclose : |z - v| < (2 : ℚ) ^ (e - 53)) : round64 z = v := by
  have hz : 0 < z := lt_of_lt_of_le (by positivity) h1
  rw [hv]
  apply round64_eval e N hz h1 h2 he
  have hu : (0 : ℚ) < (2 : ℚ) ^ (e - 52) := by positivity
  have : z / (2 : ℚ) ^ (e - 52) - N = (z - v) / (2 : ℚ) ^ (e - 52) := by
    rw [hv]
    field_simp
    ring
  rw [this, abs_div, abs_of_pos hu, div_lt_iff₀ hu]
  calc |z - v| < (2 : ℚ) ^ (e - 53) := hclose
    _ = 1 / 2 * (2 : ℚ) ^ (e - 52) := by
      rw [show e - 52 = (e - 53) + 1 by ring, zpow_add_one₀ (by norm_num)]
      ring

theorem round64_idem {x : ℚ} (hx : 0 ≤ x) : round64 (round64 x) = round64 x := by
  rcases hx.lt_or_eq with hpos | h0
  · have hu := ulp_pos x
    have hb : -1022 ≤ binade x := le_max_right _ _
    have hn0 : 0 ≤ roundHalfEven (x / ulp x) :=
      le_trans (Int.floor_nonneg.2 (div_nonneg hx hu.le)) (floor_le_roundHalfEven _)
    have hle : x / ulp x ≤ ((2 ^ 53 : ℤ) : ℚ) := by
      rw [div_le_iff₀ hu]
      have : (((2 ^ 53 : ℤ) : ℚ)) * ulp x = (2 : ℚ) ^ (binade x + 1) := by
        unfold ulp
        rw [Int.cast_pow, Int.cast_ofNat, two_pow_mul_zpow]
        congr 1
        omega
      rw [this]
      exact (lt_zpow_binade_succ hpos).le
    have hn : roundHalfEven (x / ulp x) ≤ 2 ^ 53 := by
      have := roundHalfEven_mono hle
      rwa [roundHalfEven_intCast] at this
    have hr0 : round64 x = roundHalfEven (x / ulp x) * ulp x := rfl
    have hu2 : ulp x = (2 : ℚ) ^ (binade x - 52) := rfl
    rcases hn.lt_or_eq with hlt | heq
    · rw [hr0, hu2]
      rw [hu2] at hn0 hlt
      exact round64_int_mul_zpow hn0 hlt (by omega)
    · have hr : round64 x = ((2 ^ 52 : ℤ) : ℚ) * (2 : ℚ) ^ (binade x - 52 + 1) := by
        rw [hr0, heq, hu2, zpow_add_one₀ (by norm_num)]
        push_cast
        ring
      rw [hr]
      exact round64_int_mul_zpow (by norm_num) (by norm_num) (by omega)
  · rw [← h0, round64_zero, round64_zero]

theorem getRandomIncrease64_bounds {r lo hi : ℚ} (hr0 : 0 ≤ r) (hr1 : r ≤ 1) (hlo0 : 0 ≤ lo)
    (hle : lo ≤ hi) (hlo : round64 lo = lo) (hhi : round64 hi = hi)
    (hw : round64 (hi - lo) = hi - lo) :
    lo ≤ getRandomIncrease64 r lo hi ∧ getRandomIncrease64 r lo hi ≤ hi := by
  unfold getRandomIncrease64
  rw [hw]
  have hw0 : 0 ≤ hi - lo := by linarith
  have ht0 : 0 ≤ round64 (r * (hi - lo)) := round64_nonneg (mul_nonneg hr0 hw0)
  have ht1 : round64 (r * (hi - lo)) ≤ hi - lo := by
    have := round64_mono (mul_nonneg hr0 hw0) (show r * (hi - lo) ≤ hi - lo by nlinarith)
    rwa [hw] at this
  constructor
  · have := round64_mono hlo0 (show lo ≤ round64 (r * (hi - lo)) + lo by linarith)
    rwa [hlo] at this
  · have := round64_mono (show 0 ≤ round64 (r * (hi - lo)) + lo by linarith)
      (show round64 (r * (hi - lo)) + lo ≤ hi by linarith)
    rwa [hhi] at this

theorem predictedPrice64_mono {price p q : ℚ} (hprice : 0 ≤ price) (hp : 0 ≤ p) (hpq : p ≤ q) :
    predictedPrice64 price p ≤ predictedPrice64 price q := by
  unfold predictedPrice64
  have ha0 : 0 ≤ round64 (p / 100) := round64_nonneg (by positivity)
  have ha : round64 (p / 100) ≤ round64 (q / 100) :=
    round64_mono (by positivity) (by linarith)
  have hb0 : 0 ≤ round64 (1 + round64 (p / 100)) := round64_nonneg (by linarith)
  have hb : round64 (1 + round64 (p / 100)) ≤ round64 (1 + round64 (q / 100)) :=
    round64_mono (by linarith) (by linarith)
  exact round64_mono (mul_nonneg hprice hb0) (mul_le_mul_of_nonneg_left hb hprice)

theorem round64_tomorrow_min_a : round64 (8 / 100) = 5764607523034235 / 2 ^ 56 := by
  rw [round64_eval (-4) 5764607523034235 (by norm_num) (by norm_num) (by norm_num) (by norm_num)
    (by norm_num [abs_lt])]
  norm_num

theorem round64_tomorrow_min_b : round64 (1 + 5764607523034235 / 2 ^ 56) = 607985949695017 / 2 ^ 49 := by
  rw [round64_eval 0 4863887597560136 (by norm_num) (by norm_num) (by norm_num) (by norm_num)
    (by norm_num [abs_lt])]
  norm_num

theorem round64_tomorrow_max_a : round64 (10 / 100) = 3602879701896397 / 2 ^ 55 := by
  rw [round64_eval (-4) 7205759403792794 (by norm_num) (by norm_num) (by norm_num) (by norm_num)
    (by norm_num [abs_lt])]
  norm_num

theorem round64_tomorrow_max_b : round64 (1 + 3602879701896397 / 2 ^ 55) = 2476979795053773 / 2 ^ 51 := by
  rw [round64_eval 0 4953959590107546 (by norm_num) (by norm_num) (by norm_num) (by norm_num)
    (by norm_num [abs_lt])]
  norm_num

theorem round64_tomorrow_max_c : round64 (100 * (2476979795053773 / 2 ^ 51)) = 7740561859543041 / 2 ^ 46 := by
  rw [round64_eval 6 7740561859543041 (by norm_num) (by norm_num) (by norm_num) (by norm_num)
    (by norm_num [abs_lt])]
  norm_num

theorem round64_year_max_a : round64 (3006 / 100) = 8461137799922319 / 2 ^ 48 := by
  rw [round64_eval 4 8461137799922319 (by norm_num) (by norm_num) (by norm_num) (by norm_num)
    (by norm_num [abs_lt])]
  norm_num

theorem round64_year_max_b : round64 (1 + 8461137799922319 / 2 ^ 48) = 8742612776632975 / 2 ^ 48 := by
  rw [round64_eval 4 8742612776632975 (by norm_num) (by norm_num) (by norm_num) (by norm_num)
    (by norm_num [abs_lt])]
  norm_num

theorem round64_year_max_c : round64 (50 * (8742612776632975 / 2 ^ 48)) = 1553 := by
  rw [round64_eval 10 (1553 * 2 ^ 42) (by norm_num) (by norm_num) (by norm_num) (by norm_num)
    (by norm_num [abs_lt])]
  norm_num

theorem round64_last_draw_a : round64 ((1 - 1 / 2 ^ 52) * 2) = 2 - 1 / 2 ^ 51 := by
  rw [round64_eval 0 (2 ^ 53 - 2) (by norm_num) (by norm_num) (by norm_num) (by norm_num)
    (by norm_num [abs_lt])]
  norm_num

theorem round64_last_draw_b : round64 (2 - 1 / 2 ^ 51 + 8) = 10 := by
  rw [round64_eval 3 (5 * 2 ^ 50) (by norm_num) (by norm_num) (by norm_num) (by norm_num)
    (by norm_num [abs_lt])]
  norm_num

theorem round64_ofNat (n : ℕ) [n.AtLeastTwo] (hn : n < 2 ^ 53) :
    round64 (OfNat.ofNat n : ℚ) = OfNat.ofNat n := by
  have := round64_natCast hn
  simpa using this

theorem predictedPrice64_tomorrow_max :
    predictedPrice64 100 10 = 7740561859543041 / 2 ^ 46 := by
  unfold predictedPrice64
  rw [round64_tomorrow_max_a, round64_tomorrow_max_b, round64_tomorrow_max_c]

theorem predictedPrice64_tomorrow_min : 108 ≤ predictedPrice64 100 8 := by
  unfold predictedPrice64
  rw [round64_tomorrow_min_a, round64_tomorrow_min_b]
  have h := round64_mono (show (0 : ℚ) ≤ 108 by norm_num)
    (show (108 : ℚ) ≤ 100 * (607985949695017 / 2 ^ 49) by norm_num)
  rwa [round64_ofNat 108 (by norm_num)] at h

theorem predictedPrice64_year_min : predictedPrice64 50 3000 = 1550 := by
  unfold predictedPrice64
  rw [show (3000 : ℚ) / 100 = 30 by norm_num, round64_ofNat 30 (by norm_num),
    show (1 : ℚ) + 30 = 31 by norm_num, round64_ofNat 31 (by norm_num),
    show (50 : ℚ) * 31 = 1550 by norm_num, round64_ofNat 1550 (by norm_num)]

theorem predictedPrice64_year_max : predictedPrice64 50 3006 = 1553 := by
  unfold predictedPrice64
  rw [round64_year_max_a, round64_year_max_b, round64_year_max_c]

theorem getRandomIncrease64_tomorrow_last_draw :
    getRandomIncrease64 (1 - 1 / 2 ^ 52) 8 10 = 10 := by
  unfold getRandomIncrease64
  rw [show (10 : ℚ) - 8 = 2 by norm_num, round64_ofNat 2 (by norm_num),
    round64_last_draw_a, round64_last_draw_b]

theorem getRandomIncrease64_attains {lo hi v : ℚ} {e c : ℤ} (he : -1022 ≤ e) (hc : 0 ≤ c)
    (hlo : (2 : ℚ) ^ e ≤ lo) (hhi : hi < (2 : ℚ) ^ (e + 1)) (hpos : 0 < hi - lo)
    (hw : round64 (hi - lo) = hi - lo) (hwc : hi - lo ≤ (2 : ℚ) ^ (c + 1))
    (hbudget : (hi - lo) / 2 ^ 52 + (2 : ℚ) ^ (c - 53) < (2 : ℚ) ^ (e - 53))
    (hv : round64 v = v) (h1 : lo ≤ v) (h2 : v ≤ hi) :
    ∃ j : ℤ, 0 ≤ j ∧ j < 2 ^ 52 ∧ getRandomIncrease64 (j / 2 ^ 52) lo hi = v := by
  have h2e : (0 : ℚ) < (2 : ℚ) ^ e := by positivity
  have hlo0 : 0 < lo := lt_of_lt_of_le h2e hlo
  have hv0 : 0 < v := lt_of_lt_of_le hlo0 h1
  -- the value is a multiple of the spacing of its binade
  have hvN : v = roundHalfEven (v / (2 : ℚ) ^ (e - 52)) * (2 : ℚ) ^ (e - 52) := by
    have := round64_of_binade hv0 (le_trans hlo h1) (lt_of_le_of_lt h2 hhi) he
    rw [hv] at this
    exact this
  -- the draw: the nearest multiple of 2^-52 below 1
  have hy0 : 0 ≤ (v - lo) / (hi - lo) * 2 ^ 52 := by
    have : 0 ≤ v - lo := by linarith
    positivity
  have hy1 : (v - lo) / (hi - lo) * 2 ^ 52 ≤ 2 ^ 52 := by
    have : (v - lo) / (hi - lo) ≤ 1 := by
      rw [div_le_one hpos]
      linarith
    nlinarith
  have hr0 : 0 ≤ roundHalfEven ((v - lo) / (hi - lo) * 2 ^ 52) :=
    le_trans (Int.floor_nonneg.2 hy0) (floor_le_roundHalfEven _)
  have hrerr := roundHalfEven_sub_le ((v - lo) / (hi - lo) * 2 ^ 52)
  rw [abs_le] at hrerr
  obtain ⟨j, hj0, hj1, hjy⟩ : ∃ j : ℤ, 0 ≤ j ∧ j < 2 ^ 52 ∧
      |(j : ℚ) - (v - lo) / (hi - lo) * 2 ^ 52| ≤ 1 := by
    by_cases hcase : roundHalfEven ((v - lo) / (hi - lo) * 2 ^ 52) < 2 ^ 52
    · refine ⟨_, hr0, hcase, ?_⟩
      rw [abs_le]
      constructor <;> linarith
    · refine ⟨2 ^ 52 - 1, by norm_num, by norm_num, ?_⟩
      have hge : (2 ^ 52 : ℚ) ≤ (roundHalfEven ((v - lo) / (hi - lo) * 2 ^ 52) : ℚ) := by
        exact_mod_cast not_lt.1 hcase
      rw [abs_le]
      push_cast
      constructor <;> linarith
  refine ⟨j, hj0, hj1, ?_⟩
  have hjq0 : (0 : ℚ) ≤ j := by exact_mod_cast hj0
  have hjq1 : (j : ℚ) < 2 ^ 52 := by exact_mod_cast hj1
  have hx0 : 0 ≤ (j : ℚ) / 2 ^ 52 * (hi - lo) := by positivity
  have hx1 : (j : ℚ) / 2 ^ 52 * (hi - lo) < (2 : ℚ) ^ (c + 1) := by
    have : (j : ℚ) / 2 ^ 52 < 1 := by
      rw [div_lt_one (by positivity)]
      exact hjq1
    calc (j : ℚ) / 2 ^ 52 * (hi - lo) < 1 * (hi - lo) := mul_lt_mul_of_pos_right this hpos
      _ = hi - lo := one_mul _
      _ ≤ (2 : ℚ) ^ (c + 1) := hwc
  -- the product is close to v - lo, and so is its rounding
  have hprod : |(j : ℚ) / 2 ^ 52 * (hi - lo) - (v - lo)| ≤ (hi - lo) / 2 ^ 52 := by
    have : (j : ℚ) / 2 ^ 52 * (hi - lo) - (v - lo) =
        ((j : ℚ) - (v - lo) / (hi - lo) * 2 ^ 52) * ((hi - lo) / 2 ^ 52) := by
      field_simp
      ring
    rw [this, abs_mul, abs_of_pos (show 0 < (hi - lo) / 2 ^ 52 by positivity)]
    calc |(j : ℚ) - (v - lo) / (hi - lo) * 2 ^ 52| * ((hi - lo) / 2 ^ 52)
        ≤ 1 * ((hi - lo) / 2 ^ 52) := mul_le_mul_of_nonneg_right hjy (by positivity)
      _ = (hi - lo) / 2 ^ 52 := one_mul _
  have hrnd : |round64 ((j : ℚ) / 2 ^ 52 * (hi - lo)) - (j : ℚ) / 2 ^ 52 * (hi - lo)| ≤
      (2 : ℚ) ^ (c - 53) := by
    have h := round64_sub_le ((j : ℚ) / 2 ^ 52 * (hi - lo))
    have hu := ulp_le_of_lt hx0 hx1 hc
    calc _ ≤ ulp ((j : ℚ) / 2 ^ 52 * (hi - lo)) / 2 := h
      _ ≤ (2 : ℚ) ^ (c - 52) / 2 := by linarith
      _ = (2 : ℚ) ^ (c - 53) := by
        rw [show c - 52 = (c - 53) + 1 by ring, zpow_add_one₀ (by norm_num)]
        ring
  have ht0 : 0 ≤ round64 ((j : ℚ) / 2 ^ 52 * (hi - lo)) := round64_nonneg hx0
  have ht1 : round64 ((j : ℚ) / 2 ^ 52 * (hi - lo)) ≤ hi - lo := by
    have := round64_mono hx0 (show (j : ℚ) / 2 ^ 52 * (hi - lo) ≤ hi - lo by
      have : (j : ℚ) / 2 ^ 52 ≤ 1 := by
        rw [div_le_one (by positivity)]
        exact hjq1.le
      nlinarith)
    rwa [hw] at this
  unfold getRandomIncrease64
  rw [hw]
  apply round64_of_close he (by linarith) (by linarith) hvN
  rw [abs_le] at hprod hrnd
  have : |round64 ((j : ℚ) / 2 ^ 52 * (hi - lo)) + lo - v| ≤
      (hi - lo) / 2 ^ 52 + (2 : ℚ) ^ (c - 53) := by
    rw [abs_le]
    constructor <;> linarith [hprod.1, hprod.2, hrnd.1, hrnd.2]
  exact lt_of_le_of_lt this hbudget

theorem getRandomIncrease64_isBinary64 {r lo hi : ℚ} (hr0 : 0 ≤ r) (hlo0 : 0 ≤ lo)
    (hle : lo ≤ hi) : round64 (getRandomIncrease64 r lo hi) = getRandomIncrease64 r lo hi := by
  unfold getRandomIncrease64
  apply round64_idem
  have h1 : 0 ≤ round64 (hi - lo) := round64_nonneg (by linarith)
  have h2 : 0 ≤ round64 (r * round64 (hi - lo)) := round64_nonneg (mul_nonneg hr0 h1)
  linarith

theorem round64_third : round64 (25 / 3) ≠ 25 / 3 := by
  rw [round64_eval 3 4691249611844267 (by norm_num) (by norm_num) (by norm_num) (by norm_num)
    (by norm_num [abs_lt])]
  norm_num

theorem round64_sub_ofNat (a b c : ℕ) [a.AtLeastTwo] [b.AtLeastTwo] [c.AtLeastTwo]
    (h : (OfNat.ofNat a : ℚ) - OfNat.ofNat b = OfNat.ofNat c) (hc : c < 2 ^ 53) :
    round64 ((OfNat.ofNat a : ℚ) - OfNat.ofNat b) = OfNat.ofNat a - OfNat.ofNat b := by
  rw [h]
  exact round64_ofNat c hc

theorem table_binary64 {B : Timeframe} (hB : B ∈ TIMEFRAMES) :
    0 ≤ B.min ∧ B.min ≤ B.max ∧ round64 B.min = B.min ∧ round64 B.max = B.max ∧
    round64 (B.max - B.min) = B.max - B.min := by
  rcases (mem_TIMEFRAMES_iff B).1 hB with h | h | h | h <;> subst h
  · exact ⟨by norm_num, by norm_num, round64_ofNat 8 (by norm_num),
      round64_ofNat 10 (by norm_num), round64_sub_ofNat 10 8 2 (by norm_num) (by norm_num)⟩
  · exact ⟨by norm_num, by norm_num, round64_ofNat 28 (by norm_num),
      round64_ofNat 30 (by norm_num), round64_sub_ofNat 30 28 2 (by norm_num) (by norm_num)⟩
  · exact ⟨by norm_num, by norm_num, round64_ofNat 220 (by norm_num),
      round64_ofNat 222 (by norm_num), round64_sub_ofNat 222 220 2 (by norm_num) (by norm_num)⟩
  · exact ⟨by norm_num, by norm_num, round64_ofNat 3000 (by norm_num),
      round64_ofNat 3006 (by norm_num),
      round64_sub_ofNat 3006 3000 6 (by norm_num) (by norm_num)⟩

theorem predictionEffect64_of_key {B : Timeframe} (hB : B ∈ TIMEFRAMES) (s : State) (P r : ℚ)
    (hprice : s.price = some P) (hsel : s.selectedTimeframe = some B.key) :
    predictionEffect64 s r =
      some { s with predictedPercent := some (getRandomIncrease64 r B.min B.max),
                    predictedPrice :=
                      some (predictedPrice64 P (getRandomIncrease64 r B.min B.max)) } := by
  simp only [predictionEffect64, hprice, hsel, key_truthy_of_mem hB, find_key_of_mem hB]

theorem predictionEffect64_isSome (s : State) (r : ℚ) :
    (predictionEffect64 s r).isSome = (predictionEffect s r).isSome := by
  unfold predictionEffect64 predictionEffect
  split
  · split <;> rfl
  · rfl

/-! ## The claims -/

/-- C1: for every bucket `B` of `TIMEFRAMES`, every price `P > 0` and every draw
`0 ≤ r < 1`, the prediction effect run on a state holding `P` and `B.key` returns,
stores `P * (1 + getRandomIncrease(B.min, B.max) / 100)` as `predictedPrice`, and
that value lies between `P * (1 + B.min/100)` and `P * (1 + B.max/100)`. -/
theorem C1_predicted_price_within_bucket (B : Timeframe) (hB : B ∈ TIMEFRAMES) (P r : ℚ)
    (hP : 0 < P) (hr0 : 0 ≤ r) (hr1 : r < 1) (s : State)
    (hprice : s.price = some P) (hsel : s.selectedTimeframe = some B.key) :
    ∃ s', predictionEffect s r = some s' ∧
      s'.predictedPrice = some (P * (1 + getRandomIncrease r B.min B.max / 100)) ∧
      P * (1 + B.min / 100) ≤ P * (1 + getRandomIncrease r B.min B.max / 100) ∧
      P * (1 + getRandomIncrease r B.min B.max / 100) ≤ P * (1 + B.max / 100) := by
  obtain ⟨hlo, hhi⟩ := getRandomIncrease_bounds hr0 hr1 (min_lt_max_of_mem hB)
  refine ⟨_, predictionEffect_of_key hB s P r hprice hsel, rfl, ?_, ?_⟩
  · apply mul_le_mul_of_nonneg_left _ hP.le
    linarith
  · apply mul_le_mul_of_nonneg_left _ hP.le
    linarith

/-- Witness for C1: the week bucket at price 40 with draw 1/2. -/
theorem C1_predicted_price_within_bucket_witness :
    ∃ s', predictionEffect ⟨some 40, none, none, "prediction", some "week", none, none⟩
        (1/2) = some s' ∧
      s'.predictedPrice = some (40 * (1 + getRandomIncrease (1/2) 28 30 / 100)) ∧
      (40 : ℚ) * (1 + 28 / 100) ≤ 40 * (1 + getRandomIncrease (1/2) 28 30 / 100) ∧
      (40 : ℚ) * (1 + getRandomIncrease (1/2) 28 30 / 100) ≤ 40 * (1 + 30 / 100) :=
  C1_predicted_price_within_bucket ⟨"Next Week", "week", 28, 30⟩ (by decide) 40 (1/2)
    (by norm_num) (by norm_num) (by norm_num) _ rfl rfl

/-- C2: whenever the prediction effect returns, it leaves `price` and
`selectedTimeframe` alone; `predictedPrice` and `predictedPercent` are both non-null
exactly when `price` is non-null and `selectedTimeframe` is the key of a bucket, and
then `predictedPrice = price * (1 + predictedPercent / 100)`; otherwise both are null.
The effect fails to return only for a non-null price with a truthy
`selectedTimeframe` that is not a key of the table, so it returns whenever
`selectedTimeframe` is null or a key. -/
theorem C2_prediction_defined_iff_inputs_present (s : State) (r : ℚ) :
    (∀ s', predictionEffect s r = some s' →
      s'.price = s.price ∧ s'.selectedTimeframe = s.selectedTimeframe ∧
      ((s'.predictedPrice ≠ none ∧ s'.predictedPercent ≠ none) ↔
        (s'.price ≠ none ∧ ∃ B ∈ TIMEFRAMES, s'.selectedTimeframe = some B.key)) ∧
      ((s'.price ≠ none ∧ ∃ B ∈ TIMEFRAMES, s'.selectedTimeframe = some B.key) →
        ∃ P pc, s'.price = some P ∧ s'.predictedPercent = some pc ∧
          s'.predictedPrice = some (P * (1 + pc / 100))) ∧
      (¬ (s'.price ≠ none ∧ ∃ B ∈ TIMEFRAMES, s'.selectedTimeframe = some B.key) →
        s'.predictedPrice = none ∧ s'.predictedPercent = none)) ∧
    (predictionEffect s r = none ↔
      (truthy s.selectedTimeframe = true ∧ s.price ≠ none ∧
        ∀ B ∈ TIMEFRAMES, s.selectedTimeframe ≠ some B.key)) ∧
    ((s.selectedTimeframe = none ∨ ∃ B ∈ TIMEFRAMES, s.selectedTimeframe = some B.key) →
      ∃ s', predictionEffect s r = some s') := by
  rcases hsel : s.selectedTimeframe with _ | k
  · -- no bucket selected: the else branch clears both cells
    have he := predictionEffect_of_null s r hsel
    refine ⟨?_, ?_, fun _ => ⟨_, he⟩⟩
    · intro s' hs'
      rw [he] at hs'
      cases hs'
      simp [hsel]
    · simp [he, truthy]
  · by_cases hB : ∃ B ∈ TIMEFRAMES, k = B.key
    · obtain ⟨B, hBm, rfl⟩ := hB
      rcases hprice : s.price with _ | P
      · have he : predictionEffect s r =
            some { s with predictedPrice := none, predictedPercent := none } := by
          simp [predictionEffect, hprice]
        refine ⟨?_, ?_, fun _ => ⟨_, he⟩⟩
        · intro s' hs'
          rw [he] at hs'
          cases hs'
          simp [hprice, hsel]
        · simp [he]
      · have he := predictionEffect_of_key hBm s P r hprice hsel
        refine ⟨?_, ?_, fun _ => ⟨_, he⟩⟩
        · intro s' hs'
          rw [he] at hs'
          cases hs'
          simp only [hprice, hsel]
          refine ⟨trivial, trivial, ?_, ?_, ?_⟩
          · simp only [ne_eq, reduceCtorEq, not_false_eq_true, and_self, true_and, true_iff]
            exact ⟨B, hBm, rfl⟩
          · intro _
            exact ⟨P, _, rfl, rfl, rfl⟩
          · intro hn
            exact absurd ⟨by simp, B, hBm, rfl⟩ hn
        · simp only [he, reduceCtorEq, ne_eq, not_false_eq_true, true_and, false_iff,
            not_and, not_forall, not_not]
          intro _
          exact ⟨B, hBm, rfl⟩
    · have hfind : TIMEFRAMES.find? (fun t => some t.key == some k) = none := by
        rcases hf : TIMEFRAMES.find? (fun t => some t.key == some k) with _ | tf
        · exact hf
        · obtain ⟨hm, hk⟩ := mem_of_find hf
          exact absurd ⟨tf, hm, by simpa using hk⟩ hB
      have hnokey : ∀ B ∈ TIMEFRAMES, some k ≠ some B.key := by
        intro B hBm hk
        exact hB ⟨B, hBm, by simpa using hk⟩
      by_cases ht : truthy (some k) = true
      · rcases hprice : s.price with _ | P
        · have he : predictionEffect s r =
              some { s with predictedPrice := none, predictedPercent := none } := by
            simp [predictionEffect, hprice]
          refine ⟨?_, ?_, ?_⟩
          · intro s' hs'
            rw [he] at hs'
            cases hs'
            simp [hprice, hsel]
          · simp [he]
          · intro _
            exact ⟨_, he⟩
        · have he : predictionEffect s r = none := by
            simp only [predictionEffect, hprice, hsel, ht, hfind]
          refine ⟨?_, ?_, ?_⟩
          · intro s' hs'
            rw [he] at hs'
            cases hs'
          · simp only [he, ht, true_and, ne_eq, reduceCtorEq, not_false_eq_true, true_iff]
            exact hnokey
          · rintro (h | ⟨B, hBm, hk⟩)
            · cases h
            · exact absurd hk (hnokey B hBm)
      · have he : predictionEffect s r =
            some { s with predictedPrice := none, predictedPercent := none } := by
          simp only [Bool.not_eq_true] at ht
          simp only [predictionEffect, hsel, ht]
        refine ⟨?_, ?_, ?_⟩
        · intro s' hs'
          rw [he] at hs'
          cases hs'
          have hno : ¬ (s.price ≠ none ∧ ∃ B ∈ TIMEFRAMES, s.selectedTimeframe = some B.key) := by
            rintro ⟨_, B, hBm, hk⟩
            rw [hsel] at hk
            exact hnokey B hBm hk
          refine ⟨rfl, hsel, ?_, ?_, ?_⟩
          · exact ⟨fun h => absurd rfl h.1, fun h => absurd h hno⟩
          · exact fun h => absurd h hno
          · exact fun _ => ⟨rfl, rfl⟩
        · simp [he, ht]
        · intro _
          exact ⟨_, he⟩

/-- Witness for C2: the month bucket at price 2 with draw 1/4. -/
theorem C2_prediction_defined_iff_inputs_present_witness :
    ∃ s', predictionEffect ⟨some 2, none, none, "prediction", some "month", none, none⟩ (1/4)
        = some s' ∧ s'.predictedPercent = some (441/2) ∧ s'.predictedPrice = some (641/100) := by
  obtain ⟨s', hs'⟩ := (C2_prediction_defined_iff_inputs_present
    ⟨some 2, none, none, "prediction", some "month", none, none⟩ (1/4)).2.2
    (Or.inr ⟨⟨"Next Month", "month", 220, 222⟩, by decide, rfl⟩)
  refine ⟨s', hs', ?_⟩
  have he := predictionEffect_of_key (B := ⟨"Next Month", "month", 220, 222⟩) (by decide)
    ⟨some 2, none, none, "prediction", some "month", none, none⟩ 2 (1/4) rfl rfl
  rw [he] at hs'
  cases hs'
  constructor <;> simp only [getRandomIncrease] <;> norm_num

/-- C3: for every state whose page is the prediction page, `handleReselect` gives a
state with page main, no selected timeframe and no prediction, with `price`,
`lastUpdated` and `error` untouched; the prediction effect run on that state returns
it unchanged (both prediction cells stay null), so does the whole step, and the
rendered view is the main card, which shows no prediction. -/
theorem C3_reselect_clears_prediction (s : State) (r : ℚ) (hpage : s.page = "prediction") :
    (handleReselect s).page = "main" ∧
    (handleReselect s).selectedTimeframe = none ∧
    (handleReselect s).predictedPrice = none ∧
    (handleReselect s).predictedPercent = none ∧
    (handleReselect s).price = s.price ∧
    (handleReselect s).lastUpdated = s.lastUpdated ∧
    (handleReselect s).error = s.error ∧
    predictionEffect (handleReselect s) r = some (handleReselect s) ∧
    step s .reselect r = some (handleReselect s) ∧
    render (handleReselect s) = .main (renderMainBody (handleReselect s)) ∧
    handleReselect s ≠ s := by
  have he : predictionEffect (handleReselect s) r = some (handleReselect s) :=
    predictionEffect_of_null (handleReselect s) r rfl
  refine ⟨rfl, rfl, rfl, rfl, rfl, rfl, rfl, he, ?_, ?_, ?_⟩
  · unfold step runEffects
    split
    · rfl
    · exact he
  · simp [render, handleReselect]
  · intro h
    have hp : (handleReselect s).page = "prediction" := by rw [h]; exact hpage
    exact absurd (show ("main" : String) = "prediction" from hp) (by decide)

/-- Witness for C3: a prediction page showing a stale year prediction. -/
theorem C3_reselect_clears_prediction_witness :
    step ⟨some 50, some "10:00:00", none, "prediction", some "year", some 1551, some 3002⟩
        .reselect (1/2) =
      some ⟨some 50, some "10:00:00", none, "main", none, none, none⟩ :=
  (C3_reselect_clears_prediction
    ⟨some 50, some "10:00:00", none, "prediction", some "year", some 1551, some 3002⟩
    (1/2) rfl).2.2.2.2.2.2.2.2.1

/-- C7, as stated, fails: at price 100 with the tomorrow bucket and the draw
`1 - 2^-52` (below 1) the effect stores the percent 10 and the price
`7740561859543041 / 2^46`, which is `110 + 2^-46` (printed 110.00000000000001) and
so above 110: the three roundings of `100 * (1 + 10 / 100)` give `100 * 1.1`. -/
theorem C7_counterexample_tomorrow_above_110 :
    (0 : ℚ) ≤ 1 - 1 / 2 ^ 52 ∧ (1 - 1 / 2 ^ 52 : ℚ) < 1 ∧
    predictionEffect64
        (handleTimeframeSelect ⟨some 100, some "10:00:00", none, "main", none, none, none⟩
          "tomorrow") (1 - 1 / 2 ^ 52) =
      some ⟨some 100, some "10:00:00", none, "prediction", some "tomorrow",
        some (7740561859543041 / 2 ^ 46), some 10⟩ ∧
    (110 : ℚ) < 7740561859543041 / 2 ^ 46 ∧
    (7740561859543041 / 2 ^ 46 : ℚ) = 110 + 1 / 2 ^ 46 := by
  refine ⟨by norm_num, by norm_num, ?_, by norm_num, by norm_num⟩
  rw [predictionEffect64_of_key (B := ⟨"Tomorrow", "tomorrow", 8, 10⟩) (by decide) _ 100
    (1 - 1 / 2 ^ 52) rfl rfl]
  simp only [getRandomIncrease64_tomorrow_last_draw, predictedPrice64_tomorrow_max,
    handleTimeframeSelect]

/-- C7 (amended): the table holds tomorrow [8,10], week [28,30], month [220,222] and
year [3000,3006]; in the binary64 arithmetic of the code, for every draw `0 ≤ r < 1`,
selecting "tomorrow" at price 100 makes the prediction effect store a `predictedPrice`
between 108 and `110 + 2^-46`, and selecting "year" at price 50 makes it store a
`predictedPrice` between 1550 and 1553. -/
theorem C7_binary64_tomorrow_and_year_examples (r : ℚ) (hr0 : 0 ≤ r) (hr1 : r < 1)
    (s : State) :
    TIMEFRAMES.map (fun t => (t.key, t.min, t.max)) =
      [("tomorrow", 8, 10), ("week", 28, 30), ("month", 220, 222), ("year", 3000, 3006)] ∧
    (s.price = some 100 →
      ∃ s' pp, predictionEffect64 (handleTimeframeSelect s "tomorrow") r = some s' ∧
        s'.page = "prediction" ∧ s'.predictedPrice = some pp ∧
        108 ≤ pp ∧ pp ≤ 110 + 1 / 2 ^ 46) ∧
    (s.price = some 50 →
      ∃ s' pp, predictionEffect64 (handleTimeframeSelect s "year") r = some s' ∧
        s'.page = "prediction" ∧ s'.predictedPrice = some pp ∧ 1550 ≤ pp ∧ pp ≤ 1553) := by
  refine ⟨by simp [TIMEFRAMES], ?_, ?_⟩
  · intro hprice
    have hB : (⟨"Tomorrow", "tomorrow", 8, 10⟩ : Timeframe) ∈ TIMEFRAMES := by decide
    obtain ⟨h0, hle, hlo, hhi, hw⟩ := table_binary64 hB
    obtain ⟨hpl, hpu⟩ := getRandomIncrease64_bounds hr0 hr1.le h0 hle hlo hhi hw
    simp only at hpl hpu
    refine ⟨_, _, predictionEffect64_of_key hB (handleTimeframeSelect s "tomorrow") 100 r
      hprice rfl, rfl, rfl, ?_, ?_⟩
    · exact le_trans predictedPrice64_tomorrow_min
        (predictedPrice64_mono (by norm_num) (by norm_num) hpl)
    · have := @predictedPrice64_mono 100 _ _ (by norm_num) (by linarith) hpu
      rw [predictedPrice64_tomorrow_max] at this
      exact le_trans this (by norm_num)
  · intro hprice
    have hB : (⟨"Next Year", "year", 3000, 3006⟩ : Timeframe) ∈ TIMEFRAMES := by decide
    obtain ⟨h0, hle, hlo, hhi, hw⟩ := table_binary64 hB
    obtain ⟨hpl, hpu⟩ := getRandomIncrease64_bounds hr0 hr1.le h0 hle hlo hhi hw
    simp only at hpl hpu
    refine ⟨_, _, predictionEffect64_of_key hB (handleTimeframeSelect s "year") 50 r
      hprice rfl, rfl, rfl, ?_, ?_⟩
    · have := @predictedPrice64_mono 50 _ _ (by norm_num) (by norm_num) hpl
      rwa [predictedPrice64_year_min] at this
    · have := @predictedPrice64_mono 50 _ _ (by norm_num) (by linarith) hpu
      rwa [predictedPrice64_year_max] at this

/-- Witness for C7: draw 1/2 from a main page showing the price 100. -/
theorem C7_binary64_tomorrow_and_year_examples_witness :
    ∃ s' pp, predictionEffect64
        (handleTimeframeSelect ⟨some 100, some "10:00:00", none, "main", none, none, none⟩
          "tomorrow") (1/2) = some s' ∧
      s'.page = "prediction" ∧ s'.predictedPrice = some pp ∧
      108 ≤ pp ∧ pp ≤ 110 + 1 / 2 ^ 46 :=
  (C7_binary64_tomorrow_and_year_examples (1/2) (by norm_num) (by norm_num)
    ⟨some 100, some "10:00:00", none, "main", none, none, none⟩).2.1 rfl

/-- C4, as stated, fails: a poll whose body lacks the "elrond-erd-2" entry and which
was cancelled before it completed never reads the entry, so no error is published. -/
theorem C4_counterexample_cancelled_poll_without_entry :
    PollOutcome.failed (.payload none) = true ∧
    (fetchPrice initialState true "10:00:00" (.payload none)).error = none ∧
    (fetchPrice initialState true "10:00:00" (.payload none)).error ≠ some fetchErrorMessage := by
  decide

/-- C4 (amended): a failed poll never alters `price` or `lastUpdated`, neither in a
whole run of `fetchPrice` nor in its continuation taken from any intermediate state;
and when the poll has not been cancelled, `error` ends up being the message
"Could not fetch EGLD price.". -/
theorem C4_failed_poll_keeps_price (s : State) (cancelled : Bool) (now : String)
    (o : PollOutcome) (hfail : o.failed = true) :
    (fetchPrice s cancelled now o).price = s.price ∧
    (fetchPrice s cancelled now o).lastUpdated = s.lastUpdated ∧
    (fetchPriceResume s cancelled now o).price = s.price ∧
    (fetchPriceResume s cancelled now o).lastUpdated = s.lastUpdated ∧
    (cancelled = false →
      (fetchPrice s cancelled now o).error = some "Could not fetch EGLD price." ∧
      (fetchPriceResume s cancelled now o).error = some "Could not fetch EGLD price.") := by
  rcases o with _ | _ | _ | (_ | v)
  · exact ⟨rfl, rfl, rfl, rfl, fun _ => ⟨rfl, rfl⟩⟩
  · exact ⟨rfl, rfl, rfl, rfl, fun _ => ⟨rfl, rfl⟩⟩
  · exact ⟨rfl, rfl, rfl, rfl, fun _ => ⟨rfl, rfl⟩⟩
  · cases cancelled
    · exact ⟨rfl, rfl, rfl, rfl, fun _ => ⟨rfl, rfl⟩⟩
    · exact ⟨rfl, rfl, rfl, rfl, fun h => absurd h (by decide)⟩
  · exact absurd hfail (by simp [PollOutcome.failed])

/-- Witness for C4: a live poll answered with a bad status after a good price. -/
theorem C4_failed_poll_keeps_price_witness :
    (fetchPrice ⟨some 40, some "10:00:00", none, "main", none, none, none⟩ false "10:00:30"
        .statusNotOk) =
      ⟨some 40, some "10:00:00", some "Could not fetch EGLD price.", "main", none, none, none⟩ := by
  have h := C4_failed_poll_keeps_price
    ⟨some 40, some "10:00:00", none, "main", none, none, none⟩ false "10:00:30"
    .statusNotOk rfl
  exact congrArg (fun e => (⟨some 40, some "10:00:00", e, "main", none, none, none⟩ : State))
    (h.2.2.2.2 rfl).1

/-- C5 (the code at the failing input): a poll that was in flight when the teardown
ran and whose request then rejects still runs the `catch` block, so the completion
changes the `error` cell although `cancelled` is true; only the success path is
guarded, where the completion changes nothing. -/
theorem C5_cancelled_failed_poll_still_sets_error :
    fetchPriceStart initialState = initialState ∧
    fetchPriceResume initialState true "10:00:00" .fetchRejects =
      { initialState with error := some "Could not fetch EGLD price." } ∧
    fetchPriceResume initialState true "10:00:00" .fetchRejects ≠ initialState ∧
    fetchPriceResume initialState true "10:00:00" (.payload (some 40)) = initialState := by
  decide

/-- C6: for every state and every successful, non-cancelled poll delivering
`{ "elrond-erd-2": { "usd": v } }`, a run of `fetchPrice` ends with `price = v`,
`lastUpdated` the completion time and `error = null`, while `page`,
`selectedTimeframe` and the two prediction cells are as before.  The error is cleared
by the `setError(null)` at the start of the run; the continuation taken alone writes
`price` and `lastUpdated` and nothing else. -/
theorem C6_successful_poll_publishes_price (s : State) (now : String) (v : ℚ) :
    (fetchPrice s false now (.payload (some v))).price = some v ∧
    (fetchPrice s false now (.payload (some v))).lastUpdated = some now ∧
    (fetchPrice s false now (.payload (some v))).error = none ∧
    (fetchPrice s false now (.payload (some v))).page = s.page ∧
    (fetchPrice s false now (.payload (some v))).selectedTimeframe = s.selectedTimeframe ∧
    fetchPrice s false now (.payload (some v)) =
      { s with price := some v, lastUpdated := some now, error := none } ∧
    fetchPriceResume s false now (.payload (some v)) =
      { s with price := some v, lastUpdated := some now } :=
  ⟨rfl, rfl, rfl, rfl, rfl, rfl, rfl⟩

/-- C8, as stated, fails: 25/3 lies in the closed interval of the tomorrow bucket,
but `getRandomIncrease(8, 10)` returns binary64 numbers only and 25/3 is not one, so
no draw `0 ≤ r < 1` has it as result. -/
theorem C8_counterexample_value_never_drawn :
    (⟨"Tomorrow", "tomorrow", 8, 10⟩ : Timeframe) ∈ TIMEFRAMES ∧
    (8 : ℚ) ≤ 25 / 3 ∧ (25 / 3 : ℚ) ≤ 10 ∧
    ¬ ∃ r : ℚ, 0 ≤ r ∧ r < 1 ∧ getRandomIncrease64 r 8 10 = 25 / 3 := by
  refine ⟨by decide, by norm_num, by norm_num, ?_⟩
  rintro ⟨r, hr0, _, h⟩
  have hb := @getRandomIncrease64_isBinary64 r 8 10 hr0 (by norm_num) (by norm_num)
  rw [h] at hb
  exact round64_third hb

/-- C8 (amended): in the binary64 arithmetic of the code the percent ranges over
exactly the binary64 numbers of the closed interval from `B.min` to `B.max`: for every
bucket `B` and every draw `0 ≤ r < 1` the result of `getRandomIncrease(B.min, B.max)`
is a binary64 number with `B.min ≤ result ≤ B.max`, and every binary64 number `v` with
`B.min ≤ v ≤ B.max`, both endpoints included, is the result for some draw that is a
multiple of `2^-52` in `[0, 1)`. -/
theorem C8_percent_ranges_over_binary64_interval (B : Timeframe) (hB : B ∈ TIMEFRAMES) :
    (∀ r : ℚ, 0 ≤ r → r < 1 →
      B.min ≤ getRandomIncrease64 r B.min B.max ∧ getRandomIncrease64 r B.min B.max ≤ B.max ∧
      round64 (getRandomIncrease64 r B.min B.max) = getRandomIncrease64 r B.min B.max) ∧
    (∀ v : ℚ, round64 v = v → B.min ≤ v → v ≤ B.max →
      ∃ j : ℤ, 0 ≤ j ∧ j < 2 ^ 52 ∧ getRandomIncrease64 (j / 2 ^ 52) B.min B.max = v) := by
  obtain ⟨h0, hle, hlo, hhi, hw⟩ := table_binary64 hB
  constructor
  · intro r hr0 hr1
    obtain ⟨h1, h2⟩ := getRandomIncrease64_bounds hr0 hr1.le h0 hle hlo hhi hw
    exact ⟨h1, h2, getRandomIncrease64_isBinary64 hr0 h0 hle⟩
  · intro v hv h1 h2
    rcases (mem_TIMEFRAMES_iff B).1 hB with h | h | h | h <;> subst h
    · exact getRandomIncrease64_attains (e := 3) (c := 0) (by norm_num) (by norm_num)
        (by norm_num) (by norm_num) (by norm_num) hw (by norm_num) (by norm_num) hv h1 h2
    · exact getRandomIncrease64_attains (e := 4) (c := 0) (by norm_num) (by norm_num)
        (by norm_num) (by norm_num) (by norm_num) hw (by norm_num) (by norm_num) hv h1 h2
    · exact getRandomIncrease64_attains (e := 7) (c := 0) (by norm_num) (by norm_num)
        (by norm_num) (by norm_num) (by norm_num) hw (by norm_num) (by norm_num) hv h1 h2
    · exact getRandomIncrease64_attains (e := 11) (c := 2) (by norm_num) (by norm_num)
        (by norm_num) (by norm_num) (by norm_num) hw (by norm_num) (by norm_num) hv h1 h2

/-- Witness for C8: in the week bucket the draw 1/2 stays within [28, 30], and the
upper end 30 is the result for some draw. -/
theorem C8_percent_ranges_over_binary64_interval_witness :
    ((28 : ℚ) ≤ getRandomIncrease64 (1/2) 28 30 ∧ getRandomIncrease64 (1/2) 28 30 ≤ 30 ∧
      round64 (getRandomIncrease64 (1/2) 28 30) = getRandomIncrease64 (1/2) 28 30) ∧
    ∃ j : ℤ, 0 ≤ j ∧ j < 2 ^ 52 ∧ getRandomIncrease64 (j / 2 ^ 52) 28 30 = 30 :=
  ⟨(C8_percent_ranges_over_binary64_interval ⟨"Next Week", "week", 28, 30⟩ (by decide)).1
      (1/2) (by norm_num) (by norm_num),
   (C8_percent_ranges_over_binary64_interval ⟨"Next Week", "week", 28, 30⟩ (by decide)).2
      30 (round64_ofNat 30 (by norm_num)) (by norm_num) (by norm_num)⟩

/-- C9, as stated, fails: after a good poll (price 40) followed by a failed poll the
state is reachable, its page is main, its price is non-null, and the main card shows
the error message instead of the price. -/
theorem C9_counterexample_error_hides_fetched_price :
    ReachableFrom initialState
      ⟨some 40, some "10:00:00", some "Could not fetch EGLD price.", "main", none, none, none⟩ ∧
    render ⟨some 40, some "10:00:00", some "Could not fetch EGLD price.", "main", none, none, none⟩
      = .main (.errorMessage "Could not fetch EGLD price.") ∧
    (⟨some 40, some "10:00:00", some "Could not fetch EGLD price.", "main", none, none, none⟩ :
      State).price ≠ none := by
  refine ⟨?_, by decide, by decide⟩
  have h1 : ReachableFrom initialState initialState := .refl
  have h2 : ReachableFrom initialState initialState :=
    .step .pollStart 0 h1 (by decide) (by decide)
  have h3 : ReachableFrom initialState
      ⟨some 40, some "10:00:00", none, "main", none, none, none⟩ :=
    .step (.pollDone false "10:00:00" (.payload (some 40))) 0 h2 (by decide) (by decide)
  have h4 : ReachableFrom initialState
      ⟨some 40, some "10:00:00", none, "main", none, none, none⟩ :=
    .step .pollStart 0 h3 (by decide) (by decide)
  exact .step (.pollDone false "10:00:30" .fetchRejects) 0 h4 (by decide) (by decide)

/-- C9 (amended): on the main page the card shows the error message exactly when
`error` is set (truthy), whatever `price` is; it shows the price, with the bucket
buttons, exactly when `error` is not set and `price` is non-null; and it shows the
loading text exactly when `error` is not set and `price` is null. -/
theorem C9_main_view_error_takes_precedence (s : State) (hpage : s.page = "main") :
    render s = .main (renderMainBody s) ∧
    ((∃ msg, renderMainBody s = .errorMessage msg) ↔ truthy s.error = true) ∧
    (truthy s.error = true → renderMainBody s = .errorMessage (s.error.getD "")) ∧
    (∀ P lu bs, renderMainBody s = .live P lu bs ↔
      (truthy s.error = false ∧ s.price = some P ∧ lu = s.lastUpdated ∧
        bs = TIMEFRAMES.map (fun tf => tf.key))) ∧
    (renderMainBody s = .loading ↔ (truthy s.error = false ∧ s.price = none)) := by
  refine ⟨by simp [render, hpage], ?_⟩
  unfold renderMainBody
  cases he : truthy s.error
  · rcases hprice : s.price with _ | P
    · simp
    · simp only [Bool.false_eq_true, if_false, reduceCtorEq, exists_false, false_implies,
        MainBody.live.injEq, Option.some.injEq, true_and, and_true, false_and, iff_false,
        not_false_eq_true]
      intro P' lu bs
      constructor
      · rintro ⟨h1, h2, h3⟩
        exact ⟨h1, h2.symm, h3.symm⟩
      · rintro ⟨h1, h2, h3⟩
        exact ⟨h1, h2.symm, h3.symm⟩
  · simp

/-- Witness for C9: the main page holding both a price and an error. -/
theorem C9_main_view_error_takes_precedence_witness :
    renderMainBody
        ⟨some 40, some "10:00:00", some "Could not fetch EGLD price.", "main", none, none, none⟩ =
      .errorMessage "Could not fetch EGLD price." :=
  (C9_main_view_error_takes_precedence
    ⟨some 40, some "10:00:00", some "Could not fetch EGLD price.", "main", none, none, none⟩
    rfl).2.2.1 (by decide)

/-- C10: in every state reachable from the initial state by poll starts, poll
completions (any outcome, cancelled or not, delivered prices positive), bucket
selections through a rendered button and reselects: on the prediction page `price` is
non-null, `selectedTimeframe` is the key of a table entry that `TIMEFRAMES.find`
returns, and `predictedPrice` is non-null; the prediction effect returns in that state
(no read on an undefined bucket) and leaves `predictedPrice` non-null on the prediction
page; every enabled event leads to a next state; and a non-null `price` stays non-null
in every state reachable from there. -/
theorem C10_reachable_states_are_safe (s : State) (hreach : ReachableFrom initialState s) :
    (s.page = "prediction" →
      s.price ≠ none ∧
      (∃ B ∈ TIMEFRAMES, s.selectedTimeframe = some B.key ∧
        TIMEFRAMES.find? (fun t => some t.key == s.selectedTimeframe) = some B) ∧
      s.predictedPrice ≠ none) ∧
    (∀ r, ∃ s', predictionEffect s r = some s' ∧
      (s.page = "prediction" → s'.predictedPrice ≠ none)) ∧
    (∀ ev r, enabled s ev = true → ∃ s', step s ev r = some s') ∧
    (∀ s', ReachableFrom s s' → s.price ≠ none → s'.price ≠ none) := by
  have hinv := inv_of_reachable hreach
  refine ⟨?_, ?_, ?_, fun s' h => reachableFrom_price_ne_none h⟩
  · intro hp
    rcases hinv with ⟨hp', _⟩ | ⟨_, hprice, ⟨B, hB, hsel⟩, hpred⟩
    · rw [hp] at hp'
      exact absurd hp' (by decide)
    · refine ⟨hprice, ⟨B, hB, hsel, ?_⟩, hpred⟩
      rw [hsel]
      exact find_key_of_mem hB
  · intro r
    rcases hinv with ⟨hp', hsel⟩ | ⟨_, hprice, ⟨B, hB, hsel⟩, _⟩
    · refine ⟨_, predictionEffect_of_null s r hsel, ?_⟩
      intro hp
      rw [hp] at hp'
      exact absurd hp' (by decide)
    · obtain ⟨P, hP⟩ := Option.ne_none_iff_exists'.1 hprice
      exact ⟨_, predictionEffect_of_key hB s P r hP hsel, fun _ => by simp⟩
  · intro ev r hen
    obtain ⟨s', hs', _⟩ := inv_step ev r hinv hen
    exact ⟨s', hs'⟩

/-- Witness for C10: the state reached by one good poll (price 40) and a click on
the week button with draw 1/2. -/
theorem C10_reachable_states_are_safe_witness :
    (⟨some 40, some "10:00:00", none, "prediction", some "week", some (258/5), some 29⟩ :
      State).price ≠ none ∧
    (∃ B ∈ TIMEFRAMES, some "week" = some B.key ∧
      TIMEFRAMES.find? (fun t => some t.key == some "week") = some B) ∧
    (some (258/5) : Option ℚ) ≠ none := by
  have h1 : ReachableFrom initialState initialState :=
    .step .pollStart 0 .refl (by decide) (by decide)
  have h2 : ReachableFrom initialState
      ⟨some 40, some "10:00:00", none, "main", none, none, none⟩ :=
    .step (.pollDone false "10:00:00" (.payload (some 40))) 0 h1 (by decide) (by decide)
  have h3 : ReachableFrom initialState
      ⟨some 40, some "10:00:00", none, "prediction", some "week", some (258/5), some 29⟩ :=
    .step (.select "week") (1/2) h2 (by decide) (by
      simp only [step, runEffects, handle, handleTimeframeSelect]
      rw [if_neg (by decide)]
      rw [predictionEffect_of_key (B := ⟨"Next Week", "week", 28, 30⟩) (by decide) _ 40 (1/2)
        rfl rfl]
      simp only [getRandomIncrease]
      norm_num)
  exact (C10_reachable_states_are_safe _ h3).1 rfl

end Vibeox
